import Mathlib

/-
Verification of the transformation engine in scripts/convert-odcs-atlan.py.

Shallow embedding notes:
* Python/YAML/JSON trees are modelled by `Val`: scalars (strings, integers,
  booleans, None), sequences (`Val.list`), and mappings (`Val.dict`) with
  string keys in insertion order (documents come from YAML/JSON parsing, whose
  mapping keys are strings).  Numeric scalars are modelled as integers; no
  claim depends on float behaviour.
* Fallible code returns `Option`: `Option.none` models a raised Python
  exception escaping the operation, `some x` a normal return of `x`.
* Python `str.replace(pat, "")`, `str.split(sep)`, `str.startswith`,
  `str.endswith` are modelled by `pyReplace`, `pySplit`, `pyStartsWith`,
  `pyEndsWith` over the character list of the string (the source only ever
  replaces with the empty string).  All are structurally recursive so that
  concrete witnesses evaluate inside the kernel.
* Python `dict` assignment keeps the position of an existing key and appends
  a fresh key at the end (`dictSet`); lookup is `dictGet`.
* Python list indexing admits negative indices; `pyListIdx` converts a Python
  index into a position, `Option.none` modelling an IndexError.
* The embedding is by value: a write stores a snapshot of the value it is
  given and trees are never shared.  The source instead stores into the
  contract the very objects returned by `get_value` (no copy), so a later
  rule whose target path descends through such a key writes into the source
  asset itself.  `build_contract_aliasing_failing_input` (C9) exhibits the
  write path of that aliasing bug at a concrete input; the by-value model
  realises the behaviour the source documents and the spec prescribes
  (mutation confined to the contract tree).
-/

inductive Val where
  | str : String → Val
  | int : Int → Val
  | bool : Bool → Val
  | none : Val
  | list : List Val → Val
  | dict : List (String × Val) → Val

/-- Is `pat` a prefix of `s` (over characters)? -/
def isPrefixList : List Char → List Char → Bool
  | [], _ => true
  | _ :: _, [] => false
  | p :: ps, c :: cs => p = c && isPrefixList ps cs

/-- Left-to-right, non-overlapping removal of `pat`, with enough fuel. -/
def removeFuel : Nat → List Char → List Char → List Char
  | 0, _, s => s
  | _ + 1, _, [] => []
  | Nat.succ n, pat, c :: cs =>
      if isPrefixList pat (c :: cs) then removeFuel n pat (List.drop pat.length (c :: cs))
      else c :: removeFuel n pat cs

/-- Models Python `s.replace(pat, "")` (the source only replaces by `""`). -/
def pyReplace (s pat : String) : String :=
  match pat.data with
  | [] => s
  | p :: ps => String.mk (removeFuel s.data.length (p :: ps) s.data)

/-- Models Python `s.endswith(pat)`. -/
def pyEndsWith (s pat : String) : Bool :=
  isPrefixList pat.data.reverse s.data.reverse

/-- Models Python `s.startswith(pat)`. -/
def pyStartsWith (s pat : String) : Bool :=
  isPrefixList pat.data s.data

def containsList (pat : List Char) : List Char → Bool
  | [] => isPrefixList pat []
  | c :: cs => isPrefixList pat (c :: cs) || containsList pat cs

/-- Models Python `pat in s` on strings (substring test). -/
def strContains (s pat : String) : Bool := containsList pat.data s.data

def splitFuel : Nat → List Char → List Char → List Char → List (List Char)
  | 0, _, acc, rest => [acc.reverse ++ rest]
  | _ + 1, _, acc, [] => [acc.reverse]
  | Nat.succ n, sep, acc, c :: cs =>
      if isPrefixList sep (c :: cs) then
        acc.reverse :: splitFuel n sep [] (List.drop sep.length (c :: cs))
      else splitFuel n sep (c :: acc) cs

/-- Models Python `s.split(sep)` for a non-empty separator. -/
def pySplit (s sep : String) : List String :=
  match sep.data with
  | [] => [s]
  | c :: cs => (splitFuel s.data.length (c :: cs) [] s.data).map String.mk

/-- Python dict lookup `d[k]` / `k in d`. -/
def dictGet : List (String × Val) → String → Option Val
  | [], _ => Option.none
  | (k, v) :: rest, key => if k = key then some v else dictGet rest key

/-- Python dict assignment `d[k] = v`: updates in place, appends fresh keys. -/
def dictSet : List (String × Val) → String → Val → List (String × Val)
  | [], key, v => [(key, v)]
  | (k, w) :: rest, key, v =>
      if k = key then (key, v) :: rest else (k, w) :: dictSet rest key v

/-- Python truthiness of a tree value. -/
def pyTruthy : Val → Bool
  | Val.none => false
  | Val.bool b => b
  | Val.int n => n != 0
  | Val.str s => s != ""
  | Val.list l => !l.isEmpty
  | Val.dict d => !d.isEmpty

/-- Python hashability: scalars and None are hashable, lists/dicts are not. -/
def hashableV : Val → Bool
  | Val.list _ => false
  | Val.dict _ => false
  | _ => true

def isDictB : Val → Bool
  | Val.dict _ => true
  | _ => false

/-- Python `v == s` against a string literal. -/
def pyEqStr (v : Val) (s : String) : Bool :=
  match v with
  | Val.str t => t == s
  | _ => false

/-- Python `for x in v`: lists yield elements, dicts their keys, strings their
characters; other values raise TypeError. -/
def pyIter : Val → Option (List Val)
  | Val.list l => some l
  | Val.dict d => some (d.map (fun kv => Val.str kv.1))
  | Val.str s => some (s.data.map (fun c => Val.str (String.mk [c])))
  | _ => Option.none

/-- Python `v.get(k, dflt)`; `.get` on a non-dict raises AttributeError. -/
def pyGet (v : Val) (k : String) (dflt : Val) : Option Val :=
  match v with
  | Val.dict d => some ((dictGet d k).getD dflt)
  | _ => Option.none

/-- Python list indexing `l[i]` position: negative indices count from the end;
`Option.none` is an IndexError. -/
def pyListIdx (len : Nat) (i : Int) : Option Nat :=
  if 0 ≤ i then (if i < (len : Int) then some i.toNat else Option.none)
  else (if 0 ≤ (len : Int) + i then some ((len : Int) + i).toNat else Option.none)

/-
Path Resolver: `get_value` / `_extract` (convert-odcs-atlan.py lines 6-25).

    def _extract(current, parts, idx):
        if not parts: return [(current, idx)]
        key = parts[0].replace("[]", "")
        if isinstance(current, list):
            results = []
            for i, item in enumerate(current):
                if isinstance(item, dict) and key in item:
                    results.extend(_extract(item[key], parts[1:], i))
            return results
        if isinstance(current, dict) and key in current:
            return _extract(current[key], parts[1:], idx)
        return []

`extractFuel` is the same recursion driven by a fuel argument equal to the
length of the remaining part list, which keeps it structurally recursive.
-/
def extractFuel : Nat → Val → List String → Option Nat → List (Val × Option Nat)
  | _, current, [], idx => [(current, idx)]
  | 0, _, _ :: _, _ => []
  | Nat.succ n, current, part :: rest, idx =>
    let key := pyReplace part "[]"
    match current with
    | Val.list items =>
        items.enum.flatMap (fun pr =>
          match pr.2 with
          | Val.dict d =>
              match dictGet d key with
              | some v => extractFuel n v rest (some pr.1)
              | Option.none => []
          | _ => [])
    | Val.dict d =>
        match dictGet d key with
        | some v => extractFuel n v rest idx
        | Option.none => []
    | _ => []

def _extract (current : Val) (parts : List String) (idx : Option Nat) :
    List (Val × Option Nat) :=
  extractFuel parts.length current parts idx

/-- `get_value(node, path)` (lines 6-9). -/
def get_value (node : Val) (path : String) : List (Val × Option Nat) :=
  _extract node (pySplit path ".") Option.none

/-
Path Writer: `set_value(target, path, value, idx=None)` (lines 27-56).
`setGo` processes the split parts against the current dict.  Whenever the
Python code would raise (descending into or assigning through a value that is
not a dict, appending to a non-list, indexing out of range), the result is
`Option.none`; descending into a list element that is not a dict is reported
at that step, since every subsequent Python operation on such a current value
raises before performing any further write.
-/
def setGo : List (String × Val) → List String → Val → Option Int →
    Option (List (String × Val))
  | _, [], _, _ => Option.none
  | cur, [last], value, _ =>
      let key := pyReplace last "[]"
      if pyEndsWith last "[]" then
        match dictGet cur key with
        | Option.none =>
            match value with
            | Val.list vs => some (dictSet cur key (Val.list vs))
            | v => some (dictSet cur key (Val.list [v]))
        | some (Val.list l) =>
            match value with
            | Val.list vs => some (dictSet cur key (Val.list (l ++ vs)))
            | v => some (dictSet cur key (Val.list (l ++ [v])))
        | some _ => Option.none
      else
        some (dictSet cur key value)
  | cur, p :: q :: rest, value, idx =>
      let key := pyReplace p "[]"
      if pyEndsWith p "[]" then
        let lo : Option (List Val) := match dictGet cur key with
          | Option.none => some []
          | some (Val.list l) => some l
          | some _ => Option.none
        match lo with
        | Option.none => Option.none
        | some l =>
          let pos : Int := idx.getD (l.length : Int)
          let l2 := if (l.length : Int) ≤ pos then
              l ++ List.replicate (pos.toNat + 1 - l.length) (Val.dict []) else l
          match pyListIdx l2.length pos with
          | Option.none => Option.none
          | some eff =>
            match l2.get? eff with
            | some (Val.dict d) =>
                match setGo d (q :: rest) value idx with
                | some d2 => some (dictSet cur key (Val.list (l2.set eff (Val.dict d2))))
                | Option.none => Option.none
            | _ => Option.none
      else
        let d := match dictGet cur key with
          | some (Val.dict d) => d
          | _ => []
        match setGo d (q :: rest) value idx with
        | some d2 => some (dictSet cur key (Val.dict d2))
        | Option.none => Option.none

/-- `set_value` on a whole tree; the target must be a mapping, as in the
source where `target` is always a dict. -/
def set_value (target : Val) (path : String) (value : Val) (idx : Option Int) :
    Option Val :=
  match target with
  | Val.dict d => (setGo d (pySplit path ".") value idx).map Val.dict
  | _ => Option.none

/-
Value Transform: `handle_new_value(val, new_val, default_val)` (lines 112-125).

    if isinstance(new_val, dict):
        if val in new_val: return new_val[val]
        elif default_val is not None: return default_val
        else: return None
    elif new_val is not None: return new_val
    return val

`val in new_val` raises TypeError when `val` is unhashable (a list or dict);
a hashable non-string value is never a key of a string-keyed table.
-/
def handle_new_value (val new_val default_val : Val) : Option Val :=
  match new_val with
  | Val.dict d =>
      match val with
      | Val.list _ => Option.none
      | Val.dict _ => Option.none
      | Val.str s =>
          match dictGet d s with
          | some w => some w
          | Option.none =>
              match default_val with
              | Val.none => some Val.none
              | dv => some dv
      | _ =>
          match default_val with
          | Val.none => some Val.none
          | dv => some dv
  | Val.none => some val
  | nv => some nv

/-
Rule Interpreter: `build_contract(asset, mappings)` (lines 58-110).
A mapping row; absent optional fields are `Val.none` / `Option.none`.
`Index` is the already-converted `int(m["Index"])` of line 72.
-/
structure Mapping where
  ODCS_Path : String
  Atlan_Path : String
  New_Value : Val
  Default_Value : Val
  Level : Val
  Index : Option Int

/-
Column-quality branch (lines 74-85):

    for table in asset.get("schema", []):
        for col in table.get("properties", []):
            col_name = col.get("name")
            if "quality" in col:
                for q in col["quality"]:
                    q_copy = dict(q)          # avoid mutating original
                    q_copy["column"] = col_name
                    final_val = handle_new_value(q_copy, new_val, default_val)
                    set_value(contract, dst_path, final_val)

`dict(q)` is modelled for mapping arguments (a copy); any other argument
shape is treated as an error.
-/
def columnQualityBranch (asset : Val) (dst_path : String) (new_val default_val : Val)
    (contract : List (String × Val)) : Option (List (String × Val)) :=
  (pyGet asset "schema" (Val.list [])).bind (fun schema =>
  (pyIter schema).bind (fun tables =>
  tables.foldlM (fun c table =>
    (pyGet table "properties" (Val.list [])).bind (fun props =>
    (pyIter props).bind (fun cols =>
    cols.foldlM (fun c col =>
      match col with
      | Val.dict cd =>
          match dictGet cd "quality" with
          | some qv =>
              (pyIter qv).bind (fun qs =>
              qs.foldlM (fun c q =>
                match q with
                | Val.dict qd =>
                    (handle_new_value
                        (Val.dict (dictSet qd "column" ((dictGet cd "name").getD Val.none)))
                        new_val default_val).bind (fun final_val =>
                    setGo c (pySplit dst_path ".") final_val Option.none)
                | _ => Option.none) c)
          | Option.none => some c
      | _ => Option.none) c)) ) contract))

/-- Table-level quality branch (lines 88-93). -/
def tableQualityBranch (asset : Val) (dst_path : String) (new_val default_val : Val)
    (contract : List (String × Val)) : Option (List (String × Val)) :=
  (pyGet asset "schema" (Val.list [])).bind (fun schema =>
  (pyIter schema).bind (fun tables =>
  tables.foldlM (fun c table =>
    (pyGet table "quality" (Val.list [])).bind (fun qv =>
    (pyIter qv).bind (fun qs =>
    qs.foldlM (fun c q =>
      (handle_new_value q new_val default_val).bind (fun final_val =>
      setGo c (pySplit dst_path ".") final_val Option.none)) c)) ) contract))

/-- One iteration of the rule loop of `build_contract` (lines 61-109). -/
def applyMapping (asset : Val) (contract : List (String × Val)) (m : Mapping) :
    Option (List (String × Val)) :=
  if pyStartsWith m.ODCS_Path "slaProperties[]." then some contract
  else if pyEqStr m.Level "column" && strContains m.ODCS_Path "quality" then
    columnQualityBranch asset m.Atlan_Path m.New_Value m.Default_Value contract
  else if pyEqStr m.Level "table" && strContains m.ODCS_Path "quality" then
    tableQualityBranch asset m.Atlan_Path m.New_Value m.Default_Value contract
  else
    let results := get_value asset m.ODCS_Path
    if results.isEmpty then some contract
    else
      match m.Index with
      | some ji =>
          if ji < (results.length : Int) then
            (match pyListIdx results.length ji with
             | some eff => results.get? eff
             | Option.none => Option.none).bind (fun pr =>
            (handle_new_value pr.1 m.New_Value m.Default_Value).bind (fun final_val =>
            setGo contract (pySplit m.Atlan_Path ".") final_val (some ji)))
          else some contract
      | Option.none =>
          results.foldlM (fun c pr =>
            (handle_new_value pr.1 m.New_Value m.Default_Value).bind (fun final_val =>
            setGo c (pySplit m.Atlan_Path ".") final_val (pr.2.map Int.ofNat))) contract

/-- `build_contract(asset, mappings)` (lines 58-110). -/
def build_contract (asset : Val) (mappings : List Mapping) : Option Val :=
  (mappings.foldlM (applyMapping asset) []).map Val.dict

/-
Reformulation of the column-quality branch used by C4/C9: the flat list of
quality records the branch emits, one per (table, column, quality entry)
triple, each a copy of the entry extended with the owning column's name.
-/
def qRecord (col_name : Val) (q : Val) : Option (List Val) :=
  match q with
  | Val.dict qd => some [Val.dict (dictSet qd "column" col_name)]
  | _ => Option.none

def colRecords (col : Val) : Option (List Val) :=
  match col with
  | Val.dict cd =>
      match dictGet cd "quality" with
      | some qv =>
          (pyIter qv).bind (fun qs =>
          qs.foldlM (fun acc q =>
            (qRecord ((dictGet cd "name").getD Val.none) q).map (fun rs => acc ++ rs)) [])
      | Option.none => some []
  | _ => Option.none

def tableRecords (table : Val) : Option (List Val) :=
  (pyGet table "properties" (Val.list [])).bind (fun props =>
  (pyIter props).bind (fun cols =>
  cols.foldlM (fun acc col => (colRecords col).map (fun rs => acc ++ rs)) []))

def columnQualityRecords (asset : Val) : Option (List Val) :=
  (pyGet asset "schema" (Val.list [])).bind (fun schema =>
  (pyIter schema).bind (fun tables =>
  tables.foldlM (fun acc table => (tableRecords table).map (fun rs => acc ++ rs)) []))

/-- The transform-and-write step performed for each emitted quality record. -/
def qualityWrite (dst_path : String) (new_val default_val : Val)
    (c : List (String × Val)) (r : Val) : Option (List (String × Val)) :=
  (handle_new_value r new_val default_val).bind (fun final_val =>
  setGo c (pySplit dst_path ".") final_val Option.none)

/-
SLA Aggregator: `process_sla(odcs, mappings, contracts_by_asset)`
(lines 127-169).
-/

/-- Asset-name resolution for one SLA rule entry (lines 138-144):
`some (some n)` resolves to `n`, `some Option.none` is a silent `continue`,
`Option.none` a raised exception (non-string truthy element). -/
def sla_asset_name (rd : List (String × Val)) (default_element : Val) :
    Option (Option String) :=
  let el := (dictGet rd "element").getD Val.none
  if pyTruthy el then
    match el with
    | Val.str s => some (some ((pySplit s ".").headD ""))
    | _ => Option.none
  else
    if pyTruthy default_element then
      match default_element with
      | Val.str s => some (some ((pySplit s ".").headD ""))
      | _ => Option.none
    else some Option.none

/-- The nested-dict construction of lines 161-167 (total: every intermediate
value is replaced by a dict when missing or not a dict). -/
def slaNest (obj : List (String × Val)) (parts : List String) (v : Val) :
    List (String × Val) :=
  match parts with
  | [] => obj
  | [last] => dictSet obj last v
  | p :: q :: rest =>
      let d := match dictGet obj p with
        | some (Val.dict d) => d
        | _ => []
      dictSet obj p (Val.dict (slaNest d (q :: rest) v))

/-- One mapping row's contribution to the per-rule SLA object (lines 155-167). -/
def build_sla_obj_step (rd : List (String × Val)) (obj : List (String × Val))
    (m : Mapping) : List (String × Val) :=
  let src_key := pyReplace m.ODCS_Path "slaProperties[]."
  let dst_path := pyReplace m.Atlan_Path "sla."
  match dictGet rd src_key with
  | some rv =>
      let val := match m.New_Value with
        | Val.none => rv
        | nv => nv
      slaNest obj (pySplit dst_path ".") val
  | Option.none => obj

/-- The SLA object built for one rule entry (lines 154-167). -/
def build_sla_obj (sla_mappings : List Mapping) (rd : List (String × Val)) :
    List (String × Val) :=
  sla_mappings.foldl (build_sla_obj_step rd) []

/-- One iteration of the rule loop of `process_sla` (lines 137-169). -/
def processSlaRule (default_element : Val) (sla_mappings : List Mapping)
    (cba : List (String × Val)) (rule : Val) : Option (List (String × Val)) :=
  match rule with
  | Val.dict rd =>
      (sla_asset_name rd default_element).bind (fun nmo =>
        match nmo with
        | Option.none => some cba
        | some name =>
            match dictGet cba name with
            | Option.none => some cba
            | some (Val.dict cd) =>
                let cur_sla := match dictGet cd "sla" with
                  | some (Val.list l) => l
                  | _ => []
                some (dictSet cba name (Val.dict (dictSet cd "sla"
                  (Val.list (cur_sla ++ [Val.dict (build_sla_obj sla_mappings rd)])))))
            | some _ => Option.none)
  | _ => Option.none

/-- `process_sla(odcs, mappings, contracts_by_asset)` (lines 127-169); returns
the updated `contracts_by_asset` map (string keys: table names). -/
def process_sla (odcs : Val) (mappings : List Mapping)
    (cba : List (String × Val)) : Option (List (String × Val)) :=
  (pyGet odcs "slaProperties" (Val.list [])).bind (fun sla_rules_v =>
  (pyGet odcs "slaDefaultElement" Val.none).bind (fun default_element =>
  let sla_mappings := mappings.filter (fun m => pyStartsWith m.ODCS_Path "slaProperties[].")
  if sla_mappings.isEmpty then some cba
  else
    (pyIter sla_rules_v).bind (fun sla_rules =>
    sla_rules.foldlM (processSlaRule default_element sla_mappings) cba)))

/-- One resolver step can match: `current` is a sequence holding at least one
mapping that contains `key`, or is itself a mapping containing `key`. -/
def stepMatches (current : Val) (key : String) : Bool :=
  match current with
  | Val.list items =>
      items.any (fun it =>
        match it with
        | Val.dict d => (dictGet d key).isSome
        | _ => false)
  | Val.dict d => (dictGet d key).isSome
  | _ => false

/-- The "ensure the sla list exists" view of lines 149-151: the current sla
list of a contract, treating a missing or non-list value as `[]`. -/
def ensure_sla_list (cd : List (String × Val)) : List Val :=
  match dictGet cd "sla" with
  | some (Val.list l) => l
  | _ => []

/-- The nested-mapping tree that writing a value through plain segments
creates: `buildAssoc [p1, ..., pk] a` is `{p1: {p2: ... {pk-1: a}}}` as an
association list. -/
def buildAssoc : List String → List (String × Val) → List (String × Val)
  | [], a => a
  | p :: ps, a => [(p, Val.dict (buildAssoc ps a))]

/- Helper lemmas: dictionaries, lists, Option folds. -/

theorem dictGet_dictSet_self (d : List (String × Val)) (k : String) (v : Val) :
    dictGet (dictSet d k v) k = some v := by
  induction d with
  | nil => simp [dictSet, dictGet]
  | cons kv rest ih =>
      obtain ⟨k2, w⟩ := kv
      by_cases h : k2 = k
      · simp [dictSet, h, dictGet]
      · simp [dictSet, h, dictGet, ih]

theorem dictGet_dictSet_ne (d : List (String × Val)) (k k2 : String) (v : Val)
    (h : k ≠ k2) : dictGet (dictSet d k v) k2 = dictGet d k2 := by
  induction d with
  | nil => simp [dictSet, dictGet, h]
  | cons kv rest ih =>
      obtain ⟨k3, w⟩ := kv
      by_cases h3 : k3 = k
      · subst h3
        simp [dictSet, dictGet, h]
      · simp [dictSet, h3, dictGet, ih]

theorem dictSet_dictSet (d : List (String × Val)) (k : String) (v w : Val) :
    dictSet (dictSet d k v) k w = dictSet d k w := by
  induction d with
  | nil => simp [dictSet]
  | cons kv rest ih =>
      obtain ⟨k3, u⟩ := kv
      by_cases h3 : k3 = k
      · simp [dictSet, h3]
      · simp [dictSet, h3, ih]

theorem opt_bind_none {α β : Type} (o : Option α) :
    o.bind (fun _ => (Option.none : Option β)) = Option.none := by
  cases o <;> rfl

theorem opt_bind_pure {α : Type} (o : Option α) : o.bind some = o := by
  cases o <;> rfl

theorem opt_bind_assoc {α β γ : Type} (o : Option α) (f : α → Option β)
    (g : β → Option γ) : (o.bind f).bind g = o.bind (fun a => (f a).bind g) := by
  cases o <;> rfl

theorem opt_foldlM_nil {α β : Type} (f : β → α → Option β) (b : β) :
    List.foldlM f b ([] : List α) = some b := rfl

theorem opt_foldlM_cons {α β : Type} (f : β → α → Option β) (b : β) (x : α)
    (l : List α) :
    List.foldlM f b (x :: l) = (f b x).bind (fun b2 => List.foldlM f b2 l) := rfl

theorem opt_foldlM_append {α β : Type} (f : β → α → Option β) (l1 l2 : List α)
    (b : β) :
    List.foldlM f b (l1 ++ l2)
      = (List.foldlM f b l1).bind (fun b1 => List.foldlM f b1 l2) := by
  induction l1 generalizing b with
  | nil => simp [opt_foldlM_nil]
  | cons x xs ih =>
      simp only [List.cons_append, opt_foldlM_cons, opt_bind_assoc]
      cases f b x <;> simp [ih]

theorem opt_foldlM_ext {α β : Type} (f g : β → α → Option β) (l : List α)
    (b : β) (h : ∀ c x, f c x = g c x) : List.foldlM f b l = List.foldlM g b l := by
  induction l generalizing b with
  | nil => rfl
  | cons x xs ih =>
      simp only [opt_foldlM_cons, h]
      cases g b x <;> simp [ih]

theorem list_get?_set_self {α : Type} (l : List α) (n : Nat) (a : α)
    (h : n < l.length) : (l.set n a).get? n = some a := by
  rw [List.get?_eq_getElem?]
  exact List.getElem?_set_eq_of_lt a h

theorem replicate_set_last {α : Type} (i : Nat) (a x : α) :
    (List.replicate (i + 1) a).set i x = List.replicate i a ++ [x] := by
  induction i with
  | zero => rfl
  | succ j ih =>
      rw [List.replicate_succ, List.set_cons_succ, ih, List.replicate_succ,
        List.cons_append]

theorem get?_replicate_append {α : Type} (j i : Nat) (a x : α) (h : j < i) :
    (List.replicate i a ++ [x]).get? j = some a := by
  induction i generalizing j with
  | zero => omega
  | succ k ih =>
      cases j with
      | zero => simp [List.replicate_succ]
      | succ j2 =>
          simp only [List.replicate_succ, List.cons_append, List.get?]
          exact ih j2 (by omega)

theorem pyListIdx_lt (len : Nat) (i : Int) (eff : Nat)
    (h : pyListIdx len i = some eff) : eff < len := by
  unfold pyListIdx at h
  split at h
  · split at h
    · simp only [Option.some.injEq] at h
      omega
    · simp at h
  · split at h
    · simp only [Option.some.injEq] at h
      omega
    · simp at h

/- Path Resolver step equations. -/

theorem extract_nil (v : Val) (idx : Option Nat) : _extract v [] idx = [(v, idx)] := rfl

theorem extract_cons_dict (d : List (String × Val)) (p : String) (rest : List String)
    (idx : Option Nat) :
    _extract (Val.dict d) (p :: rest) idx =
      (match dictGet d (pyReplace p "[]") with
       | some w => _extract w rest idx
       | Option.none => []) := rfl

theorem extract_cons_list (items : List Val) (p : String) (rest : List String)
    (idx : Option Nat) :
    _extract (Val.list items) (p :: rest) idx =
      items.enum.flatMap (fun pr =>
        match pr.2 with
        | Val.dict d =>
            match dictGet d (pyReplace p "[]") with
            | some w => _extract w rest (some pr.1)
            | Option.none => []
        | _ => []) := rfl

theorem flatMap_eq_nil_of {α β : Type} (l : List α) (f : α → List β)
    (h : ∀ x ∈ l, f x = []) : l.flatMap f = [] := by
  induction l with
  | nil => rfl
  | cons x xs ih =>
      simp only [List.flatMap_cons, h x (by simp)]
      exact ih (fun y hy => h y (by simp [hy]))

theorem mem_enumFrom_snd {α : Type} :
    ∀ (l : List α) (n : Nat) (pr : Nat × α), pr ∈ l.enumFrom n → pr.2 ∈ l := by
  intro l
  induction l with
  | nil =>
      intro n pr h
      simp [List.enumFrom] at h
  | cons x xs ih =>
      intro n pr h
      simp only [List.enumFrom, List.mem_cons] at h
      rcases h with h | h
      · subst h
        simp
      · exact List.mem_cons_of_mem _ (ih (n + 1) pr h)

/-- C1. Path Resolver totality: `get_value`/`_extract` is a total function
into lists of (value, index) pairs (it is a Lean function, so totality holds
by construction), and any step at which the current node matches nothing —
in particular a list-marker segment meeting a value that is neither a
sequence nor a mapping containing the marker-stripped key, a mapping missing
the key, or a sequence none of whose elements is a mapping with the key —
yields the empty result rather than an error. -/
theorem resolver_no_match_empty (current : Val) (part : String)
    (rest : List String) (idx : Option Nat)
    (h : stepMatches current (pyReplace part "[]") = false) :
    _extract current (part :: rest) idx = [] := by
  cases current with
  | str s => rfl
  | int n => rfl
  | bool b => rfl
  | none => rfl
  | dict d =>
      rw [extract_cons_dict]
      simp only [stepMatches] at h
      cases hd : dictGet d (pyReplace part "[]") with
      | none => rfl
      | some w =>
          rw [hd] at h
          simp at h
  | list items =>
      rw [extract_cons_list]
      apply flatMap_eq_nil_of
      intro pr hpr
      obtain ⟨i, v⟩ := pr
      have h2 : v ∈ items := mem_enumFrom_snd items 0 (i, v) hpr
      simp only [stepMatches] at h
      have h3 := List.any_eq_false.mp h v h2
      cases v with
      | dict d =>
          simp only at h3 ⊢
          cases hd : dictGet d (pyReplace part "[]") with
          | none => simp [hd]
          | some w =>
              rw [hd] at h3
              simp at h3
      | str s => rfl
      | int n => rfl
      | bool b => rfl
      | none => rfl
      | list l => rfl

/-- Witness for C1 at concrete inputs: a sequence whose elements are a scalar
and a mapping without the stripped key matches nothing, so resolution of
`x[].rest` yields `[]`. -/
theorem resolver_no_match_empty_witness :
    stepMatches (Val.list [Val.str "s", Val.dict [("other", Val.int 1)]])
        (pyReplace "x[]" "[]") = false ∧
      _extract (Val.list [Val.str "s", Val.dict [("other", Val.int 1)]])
        ["x[]", "y"] Option.none = [] :=
  ⟨rfl, resolver_no_match_empty (Val.list [Val.str "s", Val.dict [("other", Val.int 1)]])
    "x[]" ["y"] Option.none rfl⟩

/-- C3 (amended): for every hashable (scalar or null) resolved value, a
configured substitution table totally overrides: the table's entry when the
value is a key, else the configured default, else null — never the original
value.  Without a table, a direct replacement value always wins, and
otherwise the value passes through unchanged.  (For a structured — list or
mapping — value, a configured table makes the transform raise instead; see
the counterexample.) -/
theorem substitution_total_override (val : Val) (tbl : List (String × Val))
    (dv rep : Val) (hh : hashableV val = true) (hrep1 : rep ≠ Val.none)
    (hrep2 : isDictB rep = false) :
    handle_new_value val (Val.dict tbl) dv
        = some (match val with
                | Val.str s => (dictGet tbl s).getD dv
                | _ => dv)
      ∧ handle_new_value val rep dv = some rep
      ∧ handle_new_value val Val.none dv = some val := by
  refine ⟨?_, ?_, rfl⟩
  · cases val with
    | list l => simp [hashableV] at hh
    | dict d => simp [hashableV] at hh
    | str s =>
        simp only [handle_new_value]
        cases hd : dictGet tbl s with
        | some w => simp [hd]
        | none => cases dv <;> simp [hd]
    | int n => cases dv <;> rfl
    | bool b => cases dv <;> rfl
    | none => cases dv <;> rfl
  · cases rep with
    | none => exact absurd rfl hrep1
    | dict d => simp [isDictB] at hrep2
    | str t => rfl
    | int n => rfl
    | bool b => rfl
    | list l => rfl

/-- Counterexample to C3 as stated: a structured (unhashable) resolved value
fed to a rule with a substitution table raises TypeError (modelled
`Option.none`) instead of yielding the configured default `"D"`. -/
theorem substitution_structured_raises :
    handle_new_value (Val.list []) (Val.dict [("a", Val.str "X")]) (Val.str "D")
        = Option.none ∧
      (Option.none : Option Val) ≠ some (Val.str "D") :=
  ⟨rfl, fun h => Option.noConfusion h⟩

/-- Witness for C3's theorem at the spec's concrete inputs: table
`{"a": "X"}`, default `"D"`, input `"b"` yields `"D"`; with no default it
yields null; a direct replacement `"R"` wins; with nothing configured the
value passes through. -/
theorem substitution_total_override_witness :
    handle_new_value (Val.str "b") (Val.dict [("a", Val.str "X")]) (Val.str "D")
        = some (Val.str "D") ∧
      handle_new_value (Val.str "b") (Val.dict [("a", Val.str "X")]) Val.none
        = some Val.none ∧
      handle_new_value (Val.str "b") (Val.str "R") (Val.str "D") = some (Val.str "R") ∧
      handle_new_value (Val.str "b") Val.none (Val.str "D") = some (Val.str "b") :=
  ⟨((substitution_total_override (Val.str "b") [("a", Val.str "X")] (Val.str "D")
      (Val.str "R") rfl (fun h => Val.noConfusion h) rfl).1).trans rfl,
   ((substitution_total_override (Val.str "b") [("a", Val.str "X")] Val.none
      (Val.str "R") rfl (fun h => Val.noConfusion h) rfl).1).trans rfl,
   (substitution_total_override (Val.str "b") [("a", Val.str "X")] (Val.str "D")
      (Val.str "R") rfl (fun h => Val.noConfusion h) rfl).2.1,
   (substitution_total_override (Val.str "b") [("a", Val.str "X")] (Val.str "D")
      (Val.str "R") rfl (fun h => Val.noConfusion h) rfl).2.2⟩

/-- C8 (amended): the transform completes without raising exactly when no
substitution table is configured or the resolved value is hashable (scalar
or null); a structured value under a configured table raises, as does a
write whose list-marker key already holds a non-sequence value. -/
theorem transform_raises_iff (val new_val default_val : Val) :
    (handle_new_value val new_val default_val).isSome
      = (!isDictB new_val || hashableV val) := by
  cases new_val with
  | dict d =>
      cases val with
      | list l => rfl
      | dict d2 => rfl
      | str s =>
          simp only [handle_new_value, isDictB, hashableV]
          cases dictGet d s with
          | some w => rfl
          | none => cases default_val <;> rfl
      | int n =>
          simp only [handle_new_value, isDictB, hashableV]
          cases default_val <;> rfl
      | bool b =>
          simp only [handle_new_value, isDictB, hashableV]
          cases default_val <;> rfl
      | none =>
          simp only [handle_new_value, isDictB, hashableV]
          cases default_val <;> rfl
  | none => rfl
  | str t => rfl
  | int n => rfl
  | bool b => rfl
  | list l => rfl

/-- Counterexample to C8 as stated: both example inputs named by the claim
raise.  A mapping value fed to a rule with a substitution table raises
TypeError in `handle_new_value`, and a write through list-marker segment
`a[]` whose key `a` already holds the string `"s"` raises AttributeError in
`set_value`. -/
theorem engine_raises_on_malformed :
    handle_new_value (Val.dict []) (Val.dict [("a", Val.str "X")]) Val.none
        = Option.none ∧
      set_value (Val.dict [("a", Val.str "s")]) "a[].b" (Val.int 1) Option.none
        = Option.none :=
  ⟨rfl, rfl⟩

theorem opt_some_bind {α β : Type} (a : α) (f : α → Option β) :
    (some a).bind f = f a := rfl

theorem opt_none_bind {α β : Type} (f : α → Option β) :
    (Option.none : Option α).bind f = Option.none := rfl

/-- One SLA rule-loop step never brings an absent asset name into existence. -/
theorem processSlaRule_preserves_absent (de : Val) (sm : List Mapping)
    (cba cba2 : List (String × Val)) (r : Val) (nm : String)
    (habs : dictGet cba nm = Option.none)
    (h : processSlaRule de sm cba r = some cba2) :
    dictGet cba2 nm = Option.none := by
  cases r with
  | str s => exact absurd h (by simp [processSlaRule])
  | int n => exact absurd h (by simp [processSlaRule])
  | bool b => exact absurd h (by simp [processSlaRule])
  | none => exact absurd h (by simp [processSlaRule])
  | list l => exact absurd h (by simp [processSlaRule])
  | dict rd =>
      simp only [processSlaRule] at h
      cases hn : sla_asset_name rd de with
      | none =>
          rw [hn, opt_none_bind] at h
          exact absurd h (by simp)
      | some nmo =>
          rw [hn, opt_some_bind] at h
          cases nmo with
          | none =>
              simp only [Option.some.injEq] at h
              rw [← h]
              exact habs
          | some name =>
              dsimp only at h
              cases hg : dictGet cba name with
              | none =>
                  rw [hg] at h
                  simp only [Option.some.injEq] at h
                  rw [← h]
                  exact habs
              | some cv =>
                  have hne : name ≠ nm := by
                    intro he
                    rw [he, habs] at hg
                    exact Option.noConfusion hg
                  rw [hg] at h
                  cases cv with
                  | dict cd =>
                      simp only [Option.some.injEq] at h
                      rw [← h, dictGet_dictSet_ne _ _ _ _ hne]
                      exact habs
                  | str s => exact absurd h (by simp)
                  | int n => exact absurd h (by simp)
                  | bool b => exact absurd h (by simp)
                  | none => exact absurd h (by simp)
                  | list l => exact absurd h (by simp)

/-- The SLA rule loop never brings an absent asset name into existence. -/
theorem slaFold_preserves_absent (de : Val) (sm : List Mapping) :
    ∀ (rules : List Val) (cba cba2 : List (String × Val)) (nm : String),
      dictGet cba nm = Option.none →
      List.foldlM (processSlaRule de sm) cba rules = some cba2 →
      dictGet cba2 nm = Option.none := by
  intro rules
  induction rules with
  | nil =>
      intro cba cba2 nm habs h
      simp only [opt_foldlM_nil, Option.some.injEq] at h
      rw [← h]
      exact habs
  | cons r rest ih =>
      intro cba cba2 nm habs h
      rw [opt_foldlM_cons] at h
      cases hr : processSlaRule de sm cba r with
      | none =>
          rw [hr, opt_none_bind] at h
          exact absurd h (by simp)
      | some cba1 =>
          rw [hr, opt_some_bind] at h
          exact ih cba1 cba2 nm (processSlaRule_preserves_absent de sm cba cba1 r nm habs hr) h

/-- C6. Unresolved SLA target is dropped without side effects: an SLA rule
entry whose resolved target asset name is absent from the already-built
contract map causes no write and no error, and the whole pass produces
exactly the result it would produce were the entry not present. -/
theorem sla_unknown_target_dropped (l1 l2 : List Val) (rd : List (String × Val))
    (de : Val) (mappings : List Mapping) (cba : List (String × Val)) (nm : String)
    (hname : sla_asset_name rd de = some (some nm))
    (habs : dictGet cba nm = Option.none) :
    process_sla (Val.dict [("slaProperties", Val.list (l1 ++ Val.dict rd :: l2)),
        ("slaDefaultElement", de)]) mappings cba
      = process_sla (Val.dict [("slaProperties", Val.list (l1 ++ l2)),
        ("slaDefaultElement", de)]) mappings cba := by
  simp only [process_sla]
  rw [show pyGet (Val.dict [("slaProperties", Val.list (l1 ++ Val.dict rd :: l2)),
        ("slaDefaultElement", de)]) "slaProperties" (Val.list [])
      = some (Val.list (l1 ++ Val.dict rd :: l2)) from rfl]
  rw [show pyGet (Val.dict [("slaProperties", Val.list (l1 ++ l2)),
        ("slaDefaultElement", de)]) "slaProperties" (Val.list [])
      = some (Val.list (l1 ++ l2)) from rfl]
  rw [show pyGet (Val.dict [("slaProperties", Val.list (l1 ++ Val.dict rd :: l2)),
        ("slaDefaultElement", de)]) "slaDefaultElement" Val.none = some de from rfl]
  rw [show pyGet (Val.dict [("slaProperties", Val.list (l1 ++ l2)),
        ("slaDefaultElement", de)]) "slaDefaultElement" Val.none = some de from rfl]
  simp only [opt_some_bind]
  by_cases hemp : (mappings.filter (fun m =>
      pyStartsWith m.ODCS_Path "slaProperties[].")).isEmpty
  · simp [hemp]
  · simp only [hemp, if_neg, Bool.false_eq_true, not_false_iff, if_false]
    simp only [pyIter, opt_some_bind]
    rw [opt_foldlM_append, opt_foldlM_append]
    cases h1 : List.foldlM (processSlaRule de (mappings.filter (fun m =>
        pyStartsWith m.ODCS_Path "slaProperties[]."))) cba l1 with
    | none => rfl
    | some cba1 =>
        simp only [opt_some_bind]
        have habs1 : dictGet cba1 nm = Option.none :=
          slaFold_preserves_absent de _ l1 cba cba1 nm habs h1
        rw [opt_foldlM_cons]
        rw [show processSlaRule de (mappings.filter (fun m =>
            pyStartsWith m.ODCS_Path "slaProperties[].")) cba1 (Val.dict rd)
          = some cba1 by
            simp only [processSlaRule, hname, opt_some_bind, habs1]]
        rfl

/-- Witness for C6: an SLA entry naming `unknown_table`, absent from the
contract map `{"t": {}}`, leaves the pass's result identical to the pass
without that entry. -/
theorem sla_unknown_target_dropped_witness :
    process_sla (Val.dict [("slaProperties",
        Val.list [Val.dict [("element", Val.str "unknown_table")]]),
        ("slaDefaultElement", Val.none)])
      [⟨"slaProperties[].property", "sla.property", Val.none, Val.none, Val.none,
        Option.none⟩] [("t", Val.dict [])]
      = process_sla (Val.dict [("slaProperties", Val.list []),
          ("slaDefaultElement", Val.none)])
        [⟨"slaProperties[].property", "sla.property", Val.none, Val.none, Val.none,
          Option.none⟩] [("t", Val.dict [])] :=
  sla_unknown_target_dropped [] [] [("element", Val.str "unknown_table")] Val.none
    [⟨"slaProperties[].property", "sla.property", Val.none, Val.none, Val.none,
      Option.none⟩] [("t", Val.dict [])] "unknown_table" rfl rfl

/-- C10. SLA default-element fallback: the target asset name is the first
dot-delimited segment of the entry's `element` when present and non-empty;
otherwise the first dot-delimited segment of the document-level
`slaDefaultElement` when that is a non-empty string; and when both are
absent (or empty) the entry is skipped entirely — no write and no error. -/
theorem sla_default_element_fallback (rd : List (String × Val)) (de : Val)
    (sm : List Mapping) (cba : List (String × Val)) :
    (∀ s, dictGet rd "element" = some (Val.str s) → s ≠ "" →
        sla_asset_name rd de = some (some ((pySplit s ".").headD ""))) ∧
    (∀ t, (dictGet rd "element" = Option.none ∨ dictGet rd "element" = some Val.none
            ∨ dictGet rd "element" = some (Val.str "")) →
        de = Val.str t → t ≠ "" →
        sla_asset_name rd de = some (some ((pySplit t ".").headD ""))) ∧
    ((dictGet rd "element" = Option.none ∨ dictGet rd "element" = some Val.none
        ∨ dictGet rd "element" = some (Val.str "")) →
      (de = Val.none ∨ de = Val.str "") →
      processSlaRule de sm cba (Val.dict rd) = some cba) := by
  refine ⟨?_, ?_, ?_⟩
  · intro s hs hne
    simp [sla_asset_name, hs, pyTruthy, bne_iff_ne, hne]
  · intro t hel hde hne
    subst hde
    rcases hel with hel | hel | hel <;>
      simp [sla_asset_name, hel, pyTruthy, bne_iff_ne, hne]
  · intro hel hde
    have hskip : sla_asset_name rd de = some Option.none := by
      rcases hde with hde | hde <;> subst hde <;>
        rcases hel with hel | hel | hel <;>
          simp [sla_asset_name, hel, pyTruthy]
    simp [processSlaRule, hskip]

/-- Witness for C10 at concrete inputs: `element = "orders.freshness"`
resolves to `orders`; an entry without `element` under default element
`"tbl.x"` resolves to `tbl`; with both absent the rule step returns the
contract map unchanged. -/
theorem sla_default_element_fallback_witness :
    sla_asset_name [("element", Val.str "orders.freshness")] Val.none
        = some (some "orders") ∧
      sla_asset_name [("property", Val.str "p")] (Val.str "tbl.x")
        = some (some "tbl") ∧
      processSlaRule Val.none [] [("t", Val.dict [])]
        (Val.dict [("property", Val.str "p")]) = some [("t", Val.dict [])] :=
  ⟨((sla_default_element_fallback [("element", Val.str "orders.freshness")] Val.none
        [] [("t", Val.dict [])]).1 "orders.freshness" rfl (by decide)).trans rfl,
   ((sla_default_element_fallback [("property", Val.str "p")] (Val.str "tbl.x")
        [] [("t", Val.dict [])]).2.1 "tbl.x" (Or.inl rfl) rfl (by decide)).trans rfl,
   (sla_default_element_fallback [("property", Val.str "p")] Val.none
        [] [("t", Val.dict [])]).2.2 (Or.inl rfl) (Or.inl rfl)⟩

theorem ensure_sla_list_set (cd : List (String × Val)) (L : List Val) :
    ensure_sla_list (dictSet cd "sla" (Val.list L)) = L := by
  rw [ensure_sla_list, dictGet_dictSet_self]

/-- One SLA rule-loop step on an entry that resolves to a present asset
appends exactly one per-entry block to that asset's sla list. -/
theorem processSlaRule_matched (de : Val) (sm : List Mapping)
    (cba : List (String × Val)) (name : String) (cd : List (String × Val))
    (rd : List (String × Val)) (s : String)
    (hel : dictGet rd "element" = some (Val.str s)) (hs : s ≠ "")
    (hname : (pySplit s ".").headD "" = name)
    (hcba : dictGet cba name = some (Val.dict cd)) :
    processSlaRule de sm cba (Val.dict rd)
      = some (dictSet cba name (Val.dict (dictSet cd "sla"
          (Val.list (ensure_sla_list cd ++ [Val.dict (build_sla_obj sm rd)]))))) := by
  have hn : sla_asset_name rd de = some (some name) := by
    rw [← hname]
    simp [sla_asset_name, hel, pyTruthy, bne_iff_ne, hs]
  simp only [processSlaRule, hn, opt_some_bind]
  rw [hcba]
  rfl

/-- The SLA rule loop over entries all naming the same present asset appends
one block per entry, in order. -/
theorem sla_fold_per_entry (de : Val) (sm : List Mapping) :
    ∀ (rdl : List (List (String × Val))) (cba cd : List (String × Val))
      (name : String), rdl ≠ [] →
      dictGet cba name = some (Val.dict cd) →
      (∀ rd ∈ rdl, ∃ s, dictGet rd "element" = some (Val.str s) ∧ s ≠ "" ∧
        (pySplit s ".").headD "" = name) →
      List.foldlM (processSlaRule de sm) cba (rdl.map Val.dict)
        = some (dictSet cba name (Val.dict (dictSet cd "sla"
            (Val.list (ensure_sla_list cd
              ++ rdl.map (fun rd => Val.dict (build_sla_obj sm rd))))))) := by
  intro rdl
  induction rdl with
  | nil => intro cba cd name hne _ _; exact absurd rfl hne
  | cons rd rest ih =>
      intro cba cd name _ hcba hall
      obtain ⟨s, hel, hs, hname⟩ := hall rd (List.mem_cons_self rd rest)
      simp only [List.map_cons, opt_foldlM_cons,
        processSlaRule_matched de sm cba name cd rd s hel hs hname hcba,
        opt_some_bind]
      cases rest with
      | nil => simp
      | cons rd2 rest2 =>
          rw [ih (dictSet cba name (Val.dict (dictSet cd "sla"
              (Val.list (ensure_sla_list cd ++ [Val.dict (build_sla_obj sm rd)])))))
            (dictSet cd "sla" (Val.list (ensure_sla_list cd
              ++ [Val.dict (build_sla_obj sm rd)])))
            name (by simp) (dictGet_dictSet_self _ _ _)
            (fun rd3 h3 => hall rd3 (List.mem_cons_of_mem rd h3))]
          rw [ensure_sla_list_set, dictSet_dictSet, dictSet_dictSet]
          simp [List.append_assoc]

/-- C5 (amended): the SLA pass does not group entries by asset: for each SLA
rule entry naming a present asset it appends one separate block — the
mapped fields of that single entry — to the asset's `sla` list, in document
order; duplicate property names across entries of one asset are all kept as
separate blocks rather than merged with last-write-wins. -/
theorem sla_per_entry_blocks (mappings : List Mapping) (cba : List (String × Val))
    (name : String) (cd : List (String × Val)) (rdl : List (List (String × Val)))
    (hne : rdl ≠ [])
    (hsm : (mappings.filter (fun m =>
        pyStartsWith m.ODCS_Path "slaProperties[].")).isEmpty = false)
    (hcba : dictGet cba name = some (Val.dict cd))
    (hall : ∀ rd ∈ rdl, ∃ s, dictGet rd "element" = some (Val.str s) ∧ s ≠ "" ∧
      (pySplit s ".").headD "" = name) :
    process_sla (Val.dict [("slaProperties", Val.list (rdl.map Val.dict))]) mappings cba
      = some (dictSet cba name (Val.dict (dictSet cd "sla"
          (Val.list (ensure_sla_list cd ++ rdl.map (fun rd =>
            Val.dict (build_sla_obj (mappings.filter (fun m =>
              pyStartsWith m.ODCS_Path "slaProperties[].")) rd))))))) := by
  simp only [process_sla]
  rw [show pyGet (Val.dict [("slaProperties", Val.list (rdl.map Val.dict))])
      "slaProperties" (Val.list []) = some (Val.list (rdl.map Val.dict)) from rfl]
  rw [show pyGet (Val.dict [("slaProperties", Val.list (rdl.map Val.dict))])
      "slaDefaultElement" Val.none = some Val.none from rfl]
  simp only [opt_some_bind, hsm, Bool.false_eq_true, if_false]
  simp only [pyIter, opt_some_bind]
  exact sla_fold_per_entry Val.none _ rdl cba cd name hne hcba hall

/-- Counterexample to C5 as stated: two SLA entries for the same asset `t`
produce two separate blocks in `t`'s sla list — not one single flat
property-to-value mapping per asset. -/
theorem sla_grouping_counterexample :
    process_sla (Val.dict [("slaProperties", Val.list
        [Val.dict [("element", Val.str "t"), ("property", Val.str "freshness"),
           ("value", Val.str "24h")],
         Val.dict [("element", Val.str "t"), ("property", Val.str "retention"),
           ("value", Val.str "7d")]])])
      [⟨"slaProperties[].property", "sla.property", Val.none, Val.none, Val.none,
         Option.none⟩,
       ⟨"slaProperties[].value", "sla.value", Val.none, Val.none, Val.none,
         Option.none⟩]
      [("t", Val.dict [])]
      = some [("t", Val.dict [("sla", Val.list
          [Val.dict [("property", Val.str "freshness"), ("value", Val.str "24h")],
           Val.dict [("property", Val.str "retention"), ("value", Val.str "7d")]])])] ∧
    ([Val.dict [("property", Val.str "freshness"), ("value", Val.str "24h")],
      Val.dict [("property", Val.str "retention"), ("value", Val.str "7d")]].length ≠ 1) :=
  ⟨rfl, by decide⟩

/-- Witness for C5's amended theorem at the same concrete document: each of
the two entries contributes its own block, appended in order. -/
theorem sla_per_entry_blocks_witness :
    process_sla (Val.dict [("slaProperties", Val.list
        [Val.dict [("element", Val.str "t"), ("property", Val.str "freshness"),
           ("value", Val.str "24h")],
         Val.dict [("element", Val.str "t"), ("property", Val.str "retention"),
           ("value", Val.str "7d")]])])
      [⟨"slaProperties[].property", "sla.property", Val.none, Val.none, Val.none,
         Option.none⟩,
       ⟨"slaProperties[].value", "sla.value", Val.none, Val.none, Val.none,
         Option.none⟩]
      [("t", Val.dict [])]
      = some [("t", Val.dict [("sla", Val.list
          [Val.dict [("property", Val.str "freshness"), ("value", Val.str "24h")],
           Val.dict [("property", Val.str "retention"), ("value", Val.str "7d")]])])] :=
  (sla_per_entry_blocks
    [⟨"slaProperties[].property", "sla.property", Val.none, Val.none, Val.none,
       Option.none⟩,
     ⟨"slaProperties[].value", "sla.value", Val.none, Val.none, Val.none,
       Option.none⟩]
    [("t", Val.dict [])] "t" []
    [[("element", Val.str "t"), ("property", Val.str "freshness"),
      ("value", Val.str "24h")],
     [("element", Val.str "t"), ("property", Val.str "retention"),
      ("value", Val.str "7d")]]
    (List.cons_ne_nil _ _) rfl rfl
    (by
      intro rd hrd
      rcases List.mem_cons.mp hrd with h | h
      · subst h
        exact ⟨"t", rfl, by decide, rfl⟩
      · rcases List.mem_cons.mp h with h2 | h2
        · subst h2
          exact ⟨"t", rfl, by decide, rfl⟩
        · simp at h2)).trans rfl

theorem opt_map_some {α β : Type} (a : α) (f : α → β) :
    (some a).map f = some (f a) := rfl

theorem opt_map_none {α β : Type} (f : α → β) :
    (Option.none : Option α).map f = Option.none := rfl

/-- Record-collecting folds factor out their accumulator. -/
theorem foldlM_recs_shift {α : Type} (f : α → Option (List Val)) :
    ∀ (l : List α) (acc : List Val),
      List.foldlM (fun acc x => (f x).map (fun rs => acc ++ rs)) acc l
        = (List.foldlM (fun acc x => (f x).map (fun rs => acc ++ rs)) [] l).map
            (fun rs => acc ++ rs) := by
  intro l
  induction l with
  | nil =>
      intro acc
      simp [opt_foldlM_nil]
  | cons x xs ih =>
      intro acc
      rw [opt_foldlM_cons, opt_foldlM_cons]
      cases hf : f x with
      | none => rfl
      | some rs =>
          simp only [opt_map_some, opt_some_bind]
          rw [ih (acc ++ rs), ih ([] ++ rs)]
          cases List.foldlM (fun acc x => (f x).map (fun rs => acc ++ rs)) [] xs <;>
            simp [List.append_assoc]

/-- Extract-records-then-write equals interleaved extract-and-write: in the
Option monad a nested fold that per element extracts some records and writes
them equals first collecting all records and then folding the writes. -/
theorem foldlM_write_flatten {α σ : Type} (f : α → Option (List Val))
    (w : σ → Val → Option σ) :
    ∀ (l : List α) (acc : List Val) (c : σ),
      (List.foldlM (fun acc x => (f x).map (fun rs => acc ++ rs)) acc l).bind
          (fun rs => List.foldlM w c rs)
        = (List.foldlM w c acc).bind (fun c2 =>
            List.foldlM (fun c3 x => (f x).bind (fun rs => List.foldlM w c3 rs)) c2 l) := by
  intro l
  induction l with
  | nil =>
      intro acc c
      rw [opt_foldlM_nil, opt_some_bind]
      exact (opt_bind_pure _).symm
  | cons x xs ih =>
      intro acc c
      rw [opt_foldlM_cons]
      cases hf : f x with
      | none =>
          simp [opt_foldlM_cons, hf, opt_bind_none]
      | some rs =>
          simp only [opt_map_some, opt_some_bind]
          rw [ih (acc ++ rs) c, opt_foldlM_append, opt_bind_assoc]
          cases List.foldlM w c acc <;>
            simp [opt_foldlM_cons, hf, opt_some_bind]

/-- The per-quality-entry loop of the column branch, flattened. -/
theorem colQualLoop_eq (nm nv dv : Val) (dst : String) :
    ∀ (qs : List Val) (c : List (String × Val)),
      List.foldlM (fun c q =>
          match q with
          | Val.dict qd =>
              (handle_new_value (Val.dict (dictSet qd "column" nm)) nv dv).bind
                (fun final_val => setGo c (pySplit dst ".") final_val Option.none)
          | _ => Option.none) c qs
        = (List.foldlM (fun acc q => (qRecord nm q).map (fun rs => acc ++ rs)) [] qs).bind
            (fun rs => List.foldlM (qualityWrite dst nv dv) c rs) := by
  intro qs c
  rw [foldlM_write_flatten (qRecord nm) (qualityWrite dst nv dv) qs [] c]
  rw [opt_foldlM_nil, opt_some_bind]
  apply opt_foldlM_ext
  intro c2 q
  cases q with
  | dict qd =>
      simp only [qRecord, opt_some_bind, opt_foldlM_cons, opt_foldlM_nil]
      rw [opt_bind_pure]
      rfl
  | str s => rfl
  | int n => rfl
  | bool b => rfl
  | none => rfl
  | list l => rfl

/-- The per-column loop of the column branch, flattened. -/
theorem colLoop_eq (nv dv : Val) (dst : String) :
    ∀ (cols : List Val) (c : List (String × Val)),
      List.foldlM (fun c col =>
          match col with
          | Val.dict cd =>
              match dictGet cd "quality" with
              | some qv =>
                  (pyIter qv).bind (fun qs =>
                  List.foldlM (fun c q =>
                    match q with
                    | Val.dict qd =>
                        (handle_new_value
                            (Val.dict (dictSet qd "column" ((dictGet cd "name").getD Val.none)))
                            nv dv).bind
                          (fun final_val => setGo c (pySplit dst ".") final_val Option.none)
                    | _ => Option.none) c qs)
              | Option.none => some c
          | _ => Option.none) c cols
        = (List.foldlM (fun acc col => (colRecords col).map (fun rs => acc ++ rs)) [] cols).bind
            (fun rs => List.foldlM (qualityWrite dst nv dv) c rs) := by
  intro cols c
  rw [foldlM_write_flatten colRecords (qualityWrite dst nv dv) cols [] c]
  rw [opt_foldlM_nil, opt_some_bind]
  apply opt_foldlM_ext
  intro c2 col
  cases col with
  | dict cd =>
      cases hq : dictGet cd "quality" with
      | some qv =>
          simp only [colRecords, hq, colQualLoop_eq, opt_bind_assoc]
      | none =>
          simp [colRecords, hq, opt_foldlM_nil]
  | str s => rfl
  | int n => rfl
  | bool b => rfl
  | none => rfl
  | list l => rfl

/-- The per-table loop of the column branch, flattened. -/
theorem tableLoop_eq (nv dv : Val) (dst : String) :
    ∀ (tables : List Val) (c : List (String × Val)),
      List.foldlM (fun c table =>
          (pyGet table "properties" (Val.list [])).bind (fun props =>
          (pyIter props).bind (fun cols =>
          List.foldlM (fun c col =>
            match col with
            | Val.dict cd =>
                match dictGet cd "quality" with
                | some qv =>
                    (pyIter qv).bind (fun qs =>
                    List.foldlM (fun c q =>
                      match q with
                      | Val.dict qd =>
                          (handle_new_value
                              (Val.dict (dictSet qd "column" ((dictGet cd "name").getD Val.none)))
                              nv dv).bind
                            (fun final_val => setGo c (pySplit dst ".") final_val Option.none)
                      | _ => Option.none) c qs)
                | Option.none => some c
            | _ => Option.none) c cols)) ) c tables
        = (List.foldlM (fun acc table => (tableRecords table).map (fun rs => acc ++ rs)) [] tables).bind
            (fun rs => List.foldlM (qualityWrite dst nv dv) c rs) := by
  intro tables c
  rw [foldlM_write_flatten tableRecords (qualityWrite dst nv dv) tables [] c]
  rw [opt_foldlM_nil, opt_some_bind]
  apply opt_foldlM_ext
  intro c2 table
  simp only [tableRecords, opt_bind_assoc]
  cases pyGet table "properties" (Val.list []) with
  | none => rfl
  | some props =>
      simp only [opt_some_bind]
      cases pyIter props with
      | none => rfl
      | some cols =>
          simp only [opt_some_bind, colLoop_eq]

/-- The whole column-quality branch equals: collect one record per
(table, column, quality entry) triple — a copy of the entry with the owning
column's name injected — then transform and write each record in order. -/
theorem columnQualityBranch_eq (asset : Val) (dst : String) (nv dv : Val)
    (c : List (String × Val)) :
    columnQualityBranch asset dst nv dv c
      = (columnQualityRecords asset).bind (fun recs =>
          List.foldlM (qualityWrite dst nv dv) c recs) := by
  simp only [columnQualityBranch, columnQualityRecords]
  cases pyGet asset "schema" (Val.list []) with
  | none => rfl
  | some schema =>
      simp only [opt_some_bind]
      cases pyIter schema with
      | none => rfl
      | some tables =>
          simp only [opt_some_bind]
          exact tableLoop_eq nv dv dst tables c

/-- C4. Column-quality expansion: a column-quality rule (level `"column"`,
source path mentioning `quality`, not an SLA row) makes the rule interpreter
emit exactly one quality record per (table, column, quality-entry) triple of
the asset — `columnQualityRecords` — each record a copy of the quality entry
with the owning column's name injected under key `"column"`, each then
independently transformed and written in order. -/
theorem column_quality_expansion (asset : Val) (c : List (String × Val)) (m : Mapping)
    (h1 : pyStartsWith m.ODCS_Path "slaProperties[]." = false)
    (h2 : m.Level = Val.str "column")
    (h3 : strContains m.ODCS_Path "quality" = true) :
    applyMapping asset c m
      = (columnQualityRecords asset).bind (fun recs =>
          List.foldlM (qualityWrite m.Atlan_Path m.New_Value m.Default_Value) c recs) := by
  rw [show applyMapping asset c m
      = columnQualityBranch asset m.Atlan_Path m.New_Value m.Default_Value c by
    simp [applyMapping, h1, h2, h3, pyEqStr]]
  exact columnQualityBranch_eq asset m.Atlan_Path m.New_Value m.Default_Value c

/-- Witness for C4 at the spec's concrete instance: one table with two
columns, each carrying one quality entry, yields exactly two emitted quality
records, each tagged with its own column's name. -/
theorem column_quality_expansion_witness :
    applyMapping (Val.dict [("schema", Val.list [Val.dict [("properties", Val.list
        [Val.dict [("name", Val.str "c1"),
           ("quality", Val.list [Val.dict [("rule", Val.str "notnull")]])],
         Val.dict [("name", Val.str "c2"),
           ("quality", Val.list [Val.dict [("rule", Val.str "unique")]])]])]])])
      [] ⟨"properties.quality", "quality[]", Val.none, Val.none, Val.str "column",
          Option.none⟩
      = some [("quality", Val.list
          [Val.dict [("rule", Val.str "notnull"), ("column", Val.str "c1")],
           Val.dict [("rule", Val.str "unique"), ("column", Val.str "c2")]])] :=
  (column_quality_expansion
    (Val.dict [("schema", Val.list [Val.dict [("properties", Val.list
        [Val.dict [("name", Val.str "c1"),
           ("quality", Val.list [Val.dict [("rule", Val.str "notnull")]])],
         Val.dict [("name", Val.str "c2"),
           ("quality", Val.list [Val.dict [("rule", Val.str "unique")]])]])]])])
    [] ⟨"properties.quality", "quality[]", Val.none, Val.none, Val.str "column",
        Option.none⟩ rfl rfl rfl).trans rfl

/-- Writer idempotence worker: with an explicit index and a terminal segment
that is not a list marker, re-running `setGo` on its own output is the
identity. -/
theorem setGo_idem :
    ∀ (parts : List String) (cur cur2 : List (String × Val)) (v : Val) (i : Int),
      (∀ last, parts.getLast? = some last → pyEndsWith last "[]" = false) →
      setGo cur parts v (some i) = some cur2 →
      setGo cur2 parts v (some i) = some cur2 := by
  intro parts
  induction parts with
  | nil =>
      intro cur cur2 v i hl h
      exact absurd h (by simp [setGo])
  | cons p rest ih =>
      intro cur cur2 v i hl h
      cases rest with
      | nil =>
          have hp : pyEndsWith p "[]" = false := hl p rfl
          simp only [setGo, hp, Bool.false_eq_true, if_false, Option.some.injEq] at h ⊢
          rw [← h, dictSet_dictSet]
      | cons q rest2 =>
          have hl2 : ∀ last, (q :: rest2).getLast? = some last →
              pyEndsWith last "[]" = false := fun last hx =>
            hl last (by rw [List.getLast?_cons_cons]; exact hx)
          simp only [setGo, Option.getD_some] at h
          split at h
          · -- list-marker navigation segment
            rename_i hp
            split at h
            · exact absurd h (by simp)
            · rename_i l hlo
              by_cases hpad : ((l.length : Int) ≤ i)
              · rw [if_pos hpad] at h
                split at h
                · exact absurd h (by simp)
                · rename_i eff heff
                  split at h
                  · rename_i d hget
                    split at h
                    · rename_i d2 hrec
                      simp only [Option.some.injEq] at h
                      subst h
                      simp only [setGo, hp, if_true, Option.getD_some]
                      rw [dictGet_dictSet_self]
                      dsimp only
                      have hnopad : ¬ (((((l ++ List.replicate (i.toNat + 1 - l.length)
                          (Val.dict [])).set eff (Val.dict d2)).length : Int)) ≤ i) := by
                        rw [List.length_set, List.length_append, List.length_replicate]
                        omega
                      rw [if_neg hnopad]
                      rw [List.length_set, heff]
                      dsimp only
                      have hget2 : ((l ++ List.replicate (i.toNat + 1 - l.length)
                          (Val.dict [])).set eff (Val.dict d2)).get? eff
                          = some (Val.dict d2) :=
                        list_get?_set_self _ eff _ (pyListIdx_lt _ _ _ heff)
                      rw [hget2]
                      dsimp only
                      rw [ih d d2 v i hl2 hrec]
                      dsimp only
                      rw [List.set_set, dictSet_dictSet]
                    · exact absurd h (by simp)
                  · exact absurd h (by simp)
              · rw [if_neg hpad] at h
                split at h
                · exact absurd h (by simp)
                · rename_i eff heff
                  split at h
                  · rename_i d hget
                    split at h
                    · rename_i d2 hrec
                      simp only [Option.some.injEq] at h
                      subst h
                      simp only [setGo, hp, if_true, Option.getD_some]
                      rw [dictGet_dictSet_self]
                      dsimp only
                      have hnopad : ¬ ((((l.set eff (Val.dict d2)).length : Int)) ≤ i) := by
                        rw [List.length_set]
                        exact hpad
                      rw [if_neg hnopad]
                      rw [List.length_set, heff]
                      dsimp only
                      have hget2 : (l.set eff (Val.dict d2)).get? eff
                          = some (Val.dict d2) :=
                        list_get?_set_self _ eff _ (pyListIdx_lt _ _ _ heff)
                      rw [hget2]
                      dsimp only
                      rw [ih d d2 v i hl2 hrec]
                      dsimp only
                      rw [List.set_set, dictSet_dictSet]
                    · exact absurd h (by simp)
                  · exact absurd h (by simp)
          · -- plain navigation segment
            rename_i hp
            split at h
            · rename_i d2 hrec
              simp only [Option.some.injEq] at h
              subst h
              simp only [setGo]
              rw [if_neg hp]
              rw [dictGet_dictSet_self]
              dsimp only
              rw [ih _ d2 v i hl2 hrec]
              dsimp only
              rw [dictSet_dictSet]
            · exact absurd h (by simp)

/-- C7 (amended): `set_value` with an explicit index is idempotent for every
path whose final segment is NOT a list marker (list-marker navigation
segments are fine): writing twice leaves the tree exactly as one write.  For
a list-marker final segment the write appends on every call, even with an
explicit index — see the counterexample. -/
theorem set_value_idempotent_plain_terminal (path : String) (t t2 v : Val) (i : Int)
    (hlast : ∀ last, (pySplit path ".").getLast? = some last →
      pyEndsWith last "[]" = false)
    (h : set_value t path v (some i) = some t2) :
    set_value t2 path v (some i) = some t2 := by
  cases t with
  | dict d =>
      simp only [set_value] at h ⊢
      cases hs : setGo d (pySplit path ".") v (some i) with
      | none =>
          rw [hs] at h
          exact absurd h (by simp)
      | some d2 =>
          rw [hs] at h
          simp only [opt_map_some, Option.some.injEq] at h
          subst h
          dsimp only
          rw [setGo_idem (pySplit path ".") d d2 v i hlast hs]
          rfl
  | str s => exact absurd h (by simp [set_value])
  | int n => exact absurd h (by simp [set_value])
  | bool b => exact absurd h (by simp [set_value])
  | none => exact absurd h (by simp [set_value])
  | list l => exact absurd h (by simp [set_value])

/-- Counterexample to C7 as stated: at the list-marker terminal path `b[]`
with explicit index 0, the writer appends on every call — two writes yield a
two-element list, differing from the single write's one-element list. -/
theorem set_value_marker_terminal_not_idempotent :
    set_value (Val.dict []) "b[]" (Val.int 1) (some 0)
        = some (Val.dict [("b", Val.list [Val.int 1])]) ∧
      set_value (Val.dict [("b", Val.list [Val.int 1])]) "b[]" (Val.int 1) (some 0)
        = some (Val.dict [("b", Val.list [Val.int 1, Val.int 1])]) ∧
      some (Val.dict [("b", Val.list [Val.int 1, Val.int 1])])
        ≠ some (Val.dict [("b", Val.list [Val.int 1])]) := by
  refine ⟨rfl, rfl, ?_⟩
  intro hx
  simp only [Option.some.injEq] at hx
  injection hx with h1
  simp at h1

/-- Witness for C7's theorem: writing 5 at `a[].b` with explicit index 2
into an empty tree, then writing again, leaves exactly the once-written
tree. -/
theorem set_value_idempotent_plain_terminal_witness :
    set_value (Val.dict []) "a[].b" (Val.int 5) (some 2)
        = some (Val.dict [("a", Val.list [Val.dict [], Val.dict [],
            Val.dict [("b", Val.int 5)]])]) ∧
      set_value (Val.dict [("a", Val.list [Val.dict [], Val.dict [],
            Val.dict [("b", Val.int 5)]])]) "a[].b" (Val.int 5) (some 2)
        = some (Val.dict [("a", Val.list [Val.dict [], Val.dict [],
            Val.dict [("b", Val.int 5)]])]) :=
  ⟨rfl,
   set_value_idempotent_plain_terminal "a[].b" (Val.dict [])
     (Val.dict [("a", Val.list [Val.dict [], Val.dict [],
        Val.dict [("b", Val.int 5)]])]) (Val.int 5) 2
     (fun last hx => by
       rw [show (pySplit "a[].b" ".").getLast? = some "b" from rfl] at hx
       injection hx with h2
       subst h2
       rfl) rfl⟩

theorem get?_replicate_self {α : Type} (i : Nat) (a : α) :
    (List.replicate (i + 1) a).get? i = some a := by
  induction i with
  | zero => rfl
  | succ j ih =>
      rw [List.replicate_succ]
      exact ih

theorem pyListIdx_natCast (len i : Nat) (h : i < len) :
    pyListIdx len (i : Int) = some i := by
  unfold pyListIdx
  rw [if_pos (by omega : (0 : Int) ≤ (i : Int)),
    if_pos (by omega : ((i : Nat) : Int) < (len : Int))]
  rw [Int.toNat_natCast]

/-- Writing through plain segments into an empty mapping creates the nested
singleton mappings and places the value at the last key. -/
theorem setGo_nest_write :
    ∀ (post : List String) (last : String) (v : Val) (idx : Option Int),
      (∀ s ∈ post, pyEndsWith s "[]" = false ∧ pyReplace s "[]" = s) →
      pyEndsWith last "[]" = false → pyReplace last "[]" = last →
      setGo [] (post ++ [last]) v idx = some (buildAssoc post [(last, v)]) := by
  intro post
  induction post with
  | nil =>
      intro last v idx hp hl1 hl2
      rw [List.nil_append]
      simp only [setGo, hl1, Bool.false_eq_true, if_false, hl2]
      rfl
  | cons p ps ih =>
      intro last v idx hp hl1 hl2
      obtain ⟨hp1, hp2⟩ := hp p (List.mem_cons_self p ps)
      have hih := ih last v idx (fun s hs => hp s (List.mem_cons_of_mem p hs)) hl1 hl2
      rw [List.cons_append]
      cases hpl : ps ++ [last] with
      | nil => simp at hpl
      | cons w ws =>
          rw [hpl] at hih
          simp only [setGo, hp1, Bool.false_eq_true, if_false, hp2, dictGet]
          rw [hih]
          rfl

/-- Writing at an explicit index through one list-marker navigation segment
into an empty mapping pads the fresh sequence with `i` empty mappings and
nests the remaining plain segments inside position `i`. -/
theorem setGo_marker_write :
    ∀ (pre : List String) (ms mk last : String) (post : List String) (v : Val) (i : Nat),
      (∀ s ∈ pre, pyEndsWith s "[]" = false ∧ pyReplace s "[]" = s) →
      pyEndsWith ms "[]" = true → pyReplace ms "[]" = mk →
      (∀ s ∈ post, pyEndsWith s "[]" = false ∧ pyReplace s "[]" = s) →
      pyEndsWith last "[]" = false → pyReplace last "[]" = last →
      setGo [] (pre ++ ms :: (post ++ [last])) v (some (i : Int))
        = some (buildAssoc pre [(mk, Val.list (List.replicate i (Val.dict [])
            ++ [Val.dict (buildAssoc post [(last, v)])]))]) := by
  intro pre
  induction pre with
  | nil =>
      intro ms mk last post v i hpre hm1 hm2 hpost hl1 hl2
      rw [List.nil_append]
      have hnest := setGo_nest_write post last v (some (i : Int)) hpost hl1 hl2
      cases hpl : post ++ [last] with
      | nil => simp at hpl
      | cons w ws =>
          rw [hpl] at hnest
          simp only [setGo, hm1, if_true, hm2, Option.getD_some, dictGet]
          rw [if_pos (by simp : ((([] : List Val).length : Int)) ≤ (i : Int))]
          simp only [List.length_nil, Int.toNat_natCast, Nat.sub_zero, List.nil_append,
            List.length_replicate]
          rw [pyListIdx_natCast (i + 1) i (by omega)]
          dsimp only
          rw [get?_replicate_self]
          dsimp only
          rw [hnest]
          dsimp only
          rw [replicate_set_last]
          rfl
  | cons p pre2 ih =>
      intro ms mk last post v i hpre hm1 hm2 hpost hl1 hl2
      obtain ⟨hp1, hp2⟩ := hpre p (List.mem_cons_self p pre2)
      have hih := ih ms mk last post v i
        (fun s hs => hpre s (List.mem_cons_of_mem p hs)) hm1 hm2 hpost hl1 hl2
      rw [List.cons_append]
      cases hpl : pre2 ++ ms :: (post ++ [last]) with
      | nil => simp at hpl
      | cons w ws =>
          rw [hpl] at hih
          simp only [setGo, hp1, Bool.false_eq_true, if_false, hp2, dictGet]
          rw [hih]
          rfl

/-- Flattening the resolver's enumerate-and-recurse over a padded sequence:
only the populated last element contributes. -/
theorem enumFrom_pad_flatMap {β : Type} (f : Nat × Val → List β)
    (hf : ∀ m, f (m, Val.dict []) = []) :
    ∀ (i : Nat) (n : Nat) (x : Val),
      ((List.replicate i (Val.dict []) ++ [x]).enumFrom n).flatMap f = f (n + i, x) := by
  intro i
  induction i with
  | zero =>
      intro n x
      simp [List.enumFrom]
  | succ j ihj =>
      intro n x
      rw [List.replicate_succ, List.cons_append]
      simp only [List.enumFrom, List.flatMap_cons, hf, List.nil_append]
      rw [ihj (n + 1) x]
      have heq : n + 1 + j = n + (j + 1) := by omega
      rw [heq]

/-- Resolving plain segments through the nested mappings created by the
writer yields the written value with the ambient index unchanged. -/
theorem extract_nest :
    ∀ (post : List String) (last : String) (v : Val) (idx : Option Nat),
      (∀ s ∈ post, pyReplace s "[]" = s) →
      pyReplace last "[]" = last →
      _extract (Val.dict (buildAssoc post [(last, v)])) (post ++ [last]) idx
        = [(v, idx)] := by
  intro post
  induction post with
  | nil =>
      intro last v idx hp hl
      rw [List.nil_append]
      dsimp only [buildAssoc]
      rw [extract_cons_dict, hl]
      rw [show dictGet [(last, v)] last = some v by simp [dictGet]]
      rfl
  | cons q post2 ih =>
      intro last v idx hp hl
      have hq := hp q (List.mem_cons_self q post2)
      rw [List.cons_append]
      dsimp only [buildAssoc]
      rw [extract_cons_dict, hq]
      rw [show dictGet [(q, Val.dict (buildAssoc post2 [(last, v)]))] q
          = some (Val.dict (buildAssoc post2 [(last, v)])) by simp [dictGet]]
      dsimp only
      exact ih last v idx (fun s hs => hp s (List.mem_cons_of_mem q hs)) hl

/-- Resolving the written path on the tree created by
`setGo_marker_write` returns exactly the written value paired with the
explicit index. -/
theorem extract_marker :
    ∀ (pre : List String) (ms mk last : String) (post : List String) (v : Val) (i : Nat),
      (∀ s ∈ pre, pyReplace s "[]" = s) →
      pyReplace ms "[]" = mk →
      (∀ s ∈ post, pyReplace s "[]" = s) →
      pyReplace last "[]" = last →
      _extract (Val.dict (buildAssoc pre [(mk, Val.list (List.replicate i (Val.dict [])
          ++ [Val.dict (buildAssoc post [(last, v)])]))]))
        (pre ++ ms :: (post ++ [last])) Option.none = [(v, some i)] := by
  intro pre
  induction pre with
  | nil =>
      intro ms mk last post v i hpre hm hpost hl
      rw [List.nil_append]
      dsimp only [buildAssoc]
      rw [extract_cons_dict, hm]
      rw [show dictGet [(mk, Val.list (List.replicate i (Val.dict [])
          ++ [Val.dict (buildAssoc post [(last, v)])]))] mk
          = some (Val.list (List.replicate i (Val.dict [])
            ++ [Val.dict (buildAssoc post [(last, v)])])) by simp [dictGet]]
      dsimp only
      cases post with
      | nil =>
          rw [List.nil_append, extract_cons_list]
          rw [show (List.replicate i (Val.dict [])
              ++ [Val.dict (buildAssoc [] [(last, v)])]).enum
              = (List.replicate i (Val.dict [])
                ++ [Val.dict (buildAssoc [] [(last, v)])]).enumFrom 0 from rfl]
          rw [enumFrom_pad_flatMap _ (fun m => by simp [dictGet]) i 0 _]
          dsimp only [buildAssoc]
          rw [hl]
          rw [show dictGet [(last, v)] last = some v by simp [dictGet]]
          dsimp only
          rw [extract_nil]
          rw [Nat.zero_add]
      | cons q post2 =>
          have hq := hpost q (List.mem_cons_self q post2)
          rw [List.cons_append, extract_cons_list]
          rw [show (List.replicate i (Val.dict [])
              ++ [Val.dict (buildAssoc (q :: post2) [(last, v)])]).enum
              = (List.replicate i (Val.dict [])
                ++ [Val.dict (buildAssoc (q :: post2) [(last, v)])]).enumFrom 0 from rfl]
          rw [enumFrom_pad_flatMap _ (fun m => by simp [dictGet]) i 0 _]
          dsimp only [buildAssoc]
          rw [hq]
          rw [show dictGet [(q, Val.dict (buildAssoc post2 [(last, v)]))] q
              = some (Val.dict (buildAssoc post2 [(last, v)])) by simp [dictGet]]
          dsimp only
          rw [Nat.zero_add]
          exact extract_nest post2 last v (some i)
            (fun s hs => hpost s (List.mem_cons_of_mem q hs)) hl
  | cons p pre2 ihp =>
      intro ms mk last post v i hpre hm hpost hl
      have hp := hpre p (List.mem_cons_self p pre2)
      rw [List.cons_append]
      dsimp only [buildAssoc]
      rw [extract_cons_dict, hp]
      rw [show dictGet [(p, Val.dict (buildAssoc pre2 [(mk, Val.list
          (List.replicate i (Val.dict [])
            ++ [Val.dict (buildAssoc post [(last, v)])]))]))] p
          = some (Val.dict (buildAssoc pre2 [(mk, Val.list
            (List.replicate i (Val.dict [])
              ++ [Val.dict (buildAssoc post [(last, v)])]))])) by simp [dictGet]]
      dsimp only
      exact ihp ms mk last post v i (fun s hs => hpre s (List.mem_cons_of_mem p hs))
        hm hpost hl

/-- C2 (amended): for a path whose single list marker is on a NAVIGATION
segment (all other segments plain, the terminal plain), writing value `v` at
explicit index `i` into an empty root creates the marker key's sequence with
positions `0..i-1` padded by empty mappings and position `i` holding the
written structure; resolving the same path then returns exactly `[(v, i)]`.
For a path whose marker is the final segment the property fails — the write
appends and ignores the index; see the counterexample. -/
theorem write_then_resolve_explicit_index (path : String) (pre post : List String)
    (ms mk last : String) (v : Val) (i : Nat)
    (hsplit : pySplit path "." = pre ++ ms :: (post ++ [last]))
    (hpre : ∀ s ∈ pre, pyEndsWith s "[]" = false ∧ pyReplace s "[]" = s)
    (hm1 : pyEndsWith ms "[]" = true) (hm2 : pyReplace ms "[]" = mk)
    (hpost : ∀ s ∈ post, pyEndsWith s "[]" = false ∧ pyReplace s "[]" = s)
    (hl1 : pyEndsWith last "[]" = false) (hl2 : pyReplace last "[]" = last) :
    set_value (Val.dict []) path v (some (i : Int))
        = some (Val.dict (buildAssoc pre [(mk, Val.list (List.replicate i (Val.dict [])
            ++ [Val.dict (buildAssoc post [(last, v)])]))]))
      ∧ get_value (Val.dict (buildAssoc pre [(mk, Val.list (List.replicate i (Val.dict [])
            ++ [Val.dict (buildAssoc post [(last, v)])]))])) path = [(v, some i)]
      ∧ (∀ j, j < i → (List.replicate i (Val.dict [])
            ++ [Val.dict (buildAssoc post [(last, v)])]).get? j = some (Val.dict [])) := by
  refine ⟨?_, ?_, ?_⟩
  · simp only [set_value, hsplit]
    rw [setGo_marker_write pre ms mk last post v i hpre hm1 hm2 hpost hl1 hl2]
    rfl
  · simp only [get_value, hsplit]
    exact extract_marker pre ms mk last post v i (fun s hs => (hpre s hs).2) hm2
      (fun s hs => (hpost s hs).2) hl2
  · intro j hj
    exact get?_replicate_append j i _ _ hj

/-- Counterexample to C2 as stated: for the terminal-marker path `b[]` the
write ignores the explicit index 1 and appends, so the stored sequence is
`["x"]` — position 1 does not hold the written value and position 0 is not a
padding mapping; resolving `b[]` returns the whole sequence with no index. -/
theorem write_resolve_marker_terminal_fails :
    set_value (Val.dict []) "b[]" (Val.str "x") (some 1)
        = some (Val.dict [("b", Val.list [Val.str "x"])]) ∧
      get_value (Val.dict [("b", Val.list [Val.str "x"])]) "b[]"
        = [(Val.list [Val.str "x"], Option.none)] ∧
      ([Val.str "x"] : List Val).get? 1 = Option.none :=
  ⟨rfl, rfl, rfl⟩

/-- Witness for C2's theorem at path `a[].b`, index 2: the sequence at `a`
is padded with two empty mappings, position 2 holds `{b: 7}`, and resolving
returns `[(7, 2)]`. -/
theorem write_then_resolve_explicit_index_witness :
    set_value (Val.dict []) "a[].b" (Val.int 7) (some (2 : Int))
        = some (Val.dict [("a", Val.list [Val.dict [], Val.dict [],
            Val.dict [("b", Val.int 7)]])]) ∧
      get_value (Val.dict [("a", Val.list [Val.dict [], Val.dict [],
            Val.dict [("b", Val.int 7)]])]) "a[].b" = [(Val.int 7, some 2)] ∧
      (List.replicate 2 (Val.dict []) ++ [Val.dict [("b", Val.int 7)]]).get? 0
        = some (Val.dict []) :=
  ⟨((write_then_resolve_explicit_index "a[].b" [] [] "a[]" "a" "b" (Val.int 7) 2
      rfl (fun s hs => absurd hs (List.not_mem_nil s)) rfl rfl
      (fun s hs => absurd hs (List.not_mem_nil s)) rfl rfl).1).trans rfl,
   ((write_then_resolve_explicit_index "a[].b" [] [] "a[]" "a" "b" (Val.int 7) 2
      rfl (fun s hs => absurd hs (List.not_mem_nil s)) rfl rfl
      (fun s hs => absurd hs (List.not_mem_nil s)) rfl rfl).2.1).trans rfl,
   (write_then_resolve_explicit_index "a[].b" [] [] "a[]" "a" "b" (Val.int 7) 2
      rfl (fun s hs => absurd hs (List.not_mem_nil s)) rfl rfl
      (fun s hs => absurd hs (List.not_mem_nil s)) rfl rfl).2.2 0 (by omega)⟩

/-- C9. The claim — `build_contract` leaves the source asset unchanged, all
writes going to the fresh contract tree — is the source's own documented
intent (`# avoid mutating original`, line 81; the spec confines mutation to
the contract tree), but the code violates it: at lines 104-109 the written
`final_val` is the very object `get_value` returned from the asset, stored
without a copy, and a later rule whose target path descends through that key
(lines 42-44, then line 56) writes into the source asset itself.  Failing
input: asset `{info: {a: 1}, name: "n", schema: []}` with rules
`info → meta` and `name → meta.b`; the source program ends with the asset
mutated to `{info: {a: 1, b: "n"}, ...}`.  This theorem evaluates the
embedded code at that input: the first rule stores exactly the structure
resolved from the asset at `meta`, and the second rule's write descends
through `meta` and lands inside that stored structure — in the source these
are one shared object, so the same write mutates `asset["info"]`. -/
theorem build_contract_aliasing_failing_input :
    get_value (Val.dict [("info", Val.dict [("a", Val.int 1)]),
        ("name", Val.str "n"), ("schema", Val.list [])]) "info"
      = [(Val.dict [("a", Val.int 1)], Option.none)] ∧
    applyMapping (Val.dict [("info", Val.dict [("a", Val.int 1)]),
        ("name", Val.str "n"), ("schema", Val.list [])]) []
        ⟨"info", "meta", Val.none, Val.none, Val.none, Option.none⟩
      = some [("meta", Val.dict [("a", Val.int 1)])] ∧
    build_contract (Val.dict [("info", Val.dict [("a", Val.int 1)]),
        ("name", Val.str "n"), ("schema", Val.list [])])
        [⟨"info", "meta", Val.none, Val.none, Val.none, Option.none⟩,
         ⟨"name", "meta.b", Val.none, Val.none, Val.none, Option.none⟩]
      = some (Val.dict [("meta", Val.dict [("a", Val.int 1), ("b", Val.str "n")])]) :=
  ⟨rfl, rfl, rfl⟩
